import Mathlib

/-!
# Verification development for two small Kubernetes facilities

* `rules.ListTypeMissing` (vendor/k8s.io/kube-openapi/pkg/generators/rules/list_type_missing.go):
  the API rule reporting slice-kind struct members without a `+listType` comment tag.
* `genericclioptions.DryRunFlags` (staging/src/k8s.io/cli-runtime/pkg/genericclioptions/dry_run_flags.go):
  resolution of the `--dry-run` flag into a `DryRunStrategy`.

Go values are embedded shallowly: slices are lists (the nil slice is the empty list),
a Go `error` is an `Option` of its message (`none` is the nil error), a multi-value
return is a tuple, and a method that writes through its pointer receiver returns the
updated receiver next to its result.
-/

/-- Go `error`: the message of the error value. `Option error` is a possibly-nil error. -/
abbrev error := String

/-! ## The gengo type model read by the rule -/

namespace types

/-- Modelled from the spec: the declaration of `types.Kind` (k8s.io/gengo/types) is not part
of the sources at hand. The spec's data model gives the kind of a type as an enumerated
variant, "at minimum {Struct, Slice, Map, Primitive, Pointer, Other}". -/
inductive Kind where
  | Struct
  | Slice
  | Map
  | Primitive
  | Pointer
  | Other
  deriving DecidableEq, Repr

mutual
/-- Modelled from the spec: the declaration of `types.Type` (k8s.io/gengo/types) is not part
of the sources at hand. A declared type has a kind and an ordered sequence of members; the
member sequence is stored whatever the kind is, since the rule reads `t.Members` only after
it has looked at `t.Kind`. -/
inductive Type_ where
  | mk (kind : Kind) (members : List Member) : Type_
/-- Modelled from the spec: the declaration of `types.Member` (k8s.io/gengo/types) is not part
of the sources at hand. A member has a name, the lines of its documentation comment (from
which its tags are extracted) and its own type; the pointer `Member.Type` always refers to a
type, as in the spec's data model. -/
inductive Member where
  | mk (name : String) (commentLines : List String) (type : Type_) : Member
end

/-- Field `Kind` of a `types.Type`. -/
def Type_.Kind : Type_ → Kind
  | .mk k _ => k

/-- Field `Members` of a `types.Type`. -/
def Type_.Members : Type_ → List Member
  | .mk _ ms => ms

/-- Field `Name` of a `types.Member`. -/
def Member.Name : Member → String
  | .mk n _ _ => n

/-- Field `CommentLines` of a `types.Member`. -/
def Member.CommentLines : Member → List String
  | .mk _ c _ => c

/-- Field `Type` of a `types.Member` (`Type` alone is reserved in Lean). -/
def Member.Type_ : Member → Type_
  | .mk _ _ t => t

/-- Go `map[string][]string`, the result type of `ExtractCommentTags`: an association list
whose first binding of a key is the current one. -/
abbrev TagMap := List (String × List String)

/-- Go map indexing `m[key]`: `none` is the nil slice obtained for a key the map does not
hold. The slices stored by `ExtractCommentTags` are results of `append` and are never nil. -/
def TagMap.index (m : TagMap) (key : String) : Option (List String) :=
  m.lookup key

/-- Go map assignment `m[key] = value`. -/
def TagMap.set (m : TagMap) (key : String) (value : List String) : TagMap :=
  (key, value) :: m.filter (fun kv => kv.1 != key)

/-- Modelled from the spec: the reading of one comment line by `types.ExtractCommentTags`
(k8s.io/gengo/types), which is not part of the sources at hand. The spec says that "keys are
extracted from comment lines using a leading designated marker, conventionally `+`", that a
tag looks like `+listType=...`, and that a key may be present with an empty value. So a line
that begins with the marker carries one tag: its key is the text after the marker up to the
first `=`, its value the text after that `=` (empty when there is none). A line that does
not begin with the marker carries no tag. -/
def tagOfLine (marker : String) (line : String) : Option (String × String) :=
  if marker.toList.isPrefixOf line.toList then
    let rest := line.toList.drop marker.length
    some (String.mk (rest.takeWhile (fun c => c != '=')),
      String.mk ((rest.dropWhile (fun c => c != '=')).drop 1))
  else
    none

/-- Modelled from the spec: `types.ExtractCommentTags` (k8s.io/gengo/types) is not part of the
sources at hand. The spec describes the tags of a member as a "mapping from tag-key to
tag-value(s), extracted from the member's associated documentation/annotation comments":
the tag of every line is added to the map, the values of a key being collected in line
order. -/
def ExtractCommentTags (marker : String) (lines : List String) : TagMap :=
  lines.foldl
    (fun out line =>
      match tagOfLine marker line with
      | some (key, value) => out.set key ((out.index key).getD [] ++ [value])
      | none => out)
    []

/-- A comment line is the tag `key` under `marker`, with any value: it is the marker followed
by the key, and then either ends (the bare tag) or goes on with `=` and a value, which may
be empty. -/
def carriesTag (marker : String) (key : String) (line : String) : Bool :=
  line.toList == marker.toList ++ key.toList ||
    (marker.toList ++ key.toList ++ ['=']).isPrefixOf line.toList

/-- Some line of the comment is the tag `key` under `marker`. -/
def hasTag (marker : String) (key : String) (lines : List String) : Bool :=
  lines.any (carriesTag marker key)

end types

/-! ## rules.ListTypeMissing -/

namespace rules

open types

/-- The rule type `ListTypeMissing struct{}`: it has no fields. -/
structure ListTypeMissing where
  deriving DecidableEq, Repr

/-- The body of the loop `for _, m := range t.Members` of `Validate`, as a function of the
violations collected so far. `extractCommentTags` stands for `types.ExtractCommentTags`. -/
def ListTypeMissing.visitMember (extractCommentTags : String → List String → TagMap)
    (fields : List String) (m : Member) : List String :=
  let goName := m.Name
  if m.Type_.Kind ≠ Kind.Slice then
    fields
  else if (extractCommentTags "+" m.CommentLines).index "listType" = none then
    fields ++ [goName]
  else
    fields

/-- `func (l *ListTypeMissing) Validate(t *types.Type) ([]string, error)`.
The helper `types.ExtractCommentTags` is taken as the parameter `extractCommentTags`. -/
def ListTypeMissing.Validate (extractCommentTags : String → List String → TagMap)
    (_l : ListTypeMissing) (t : Type_) : List String × Option error :=
  let fields : List String := []
  let fields :=
    match t.Kind with
    | Kind.Struct => t.Members.foldl (ListTypeMissing.visitMember extractCommentTags) fields
    | _ => fields
  (fields, none)

/-- `func (l *ListTypeMissing) Name() string`. -/
def ListTypeMissing.Name (_l : ListTypeMissing) : String :=
  "list_type_missing"

end rules

/-! ## The rule as the spec words it -/

namespace rules

open types

/-- The spec's reporting condition for one member: its own kind is Slice and its comment
lines yield no `listType` key under the `+` marker. -/
def ListTypeMissing.lacksListType (extractCommentTags : String → List String → TagMap)
    (m : Member) : Bool :=
  decide (m.Type_.Kind = Kind.Slice) &&
    decide ((extractCommentTags "+" m.CommentLines).index "listType" = none)

/-- The spec's violation list of a member sequence: the names of the members that meet the
reporting condition, in declaration order and with multiplicity. -/
def ListTypeMissing.violationsSpec (extractCommentTags : String → List String → TagMap)
    (members : List Member) : List String :=
  (members.filter (ListTypeMissing.lacksListType extractCommentTags)).map Member.Name

/-- The scenario type of the spec: struct `Pod` with a primitive member `Name`, an untagged
slice member `Containers` and a slice member `Volumes` tagged `+listType=atomic`. -/
def examplePod : Type_ :=
  .mk .Struct
    [ .mk "Name" [] (.mk .Primitive []),
      .mk "Containers" [] (.mk .Slice []),
      .mk "Volumes" ["+listType=atomic"] (.mk .Slice []) ]

/-- A struct with two slice members of the same name (Go allows several fields named `_`):
the first is tagged `+listType=atomic`, the second is not tagged. -/
def exampleSharedName : Type_ :=
  .mk .Struct
    [ .mk "_" ["+listType=atomic"] (.mk .Slice []),
      .mk "_" [] (.mk .Slice []) ]

/-- A struct with three slice members: tagged with the empty value, with the bare tag, and
not tagged. -/
def exampleEmptyValues : Type_ :=
  .mk .Struct
    [ .mk "Items" ["items of the list", "+listType="] (.mk .Slice []),
      .mk "Keys" ["+listType"] (.mk .Slice []),
      .mk "Rest" ["+optional"] (.mk .Slice []) ]

end rules

/-! ## The flag set read by the dry-run resolution -/

namespace pflag

/-- Modelled from the spec: the flag library (github.com/spf13/pflag) is not part of the
sources at hand. The spec speaks of "a command-line flag named `dry-run` accepting string
values". A flag has a name, the text of its current value, the name of its value type
(`"string"` for a string flag), its default text, and the mark `Changed` that records
whether the user set it. -/
structure Flag where
  Name : String
  Value : String
  ValueType : String
  DefValue : String
  Changed : Bool
  deriving DecidableEq, Repr

/-- Modelled from the spec: `pflag.FlagSet` is not part of the sources at hand. The set of
flags defined on a command, looked up by name. -/
structure FlagSet where
  formal : List Flag
  deriving DecidableEq, Repr

/-- Modelled from the spec: `FlagSet.Lookup` is not part of the sources at hand. It is
the flag defined under `name`, if there is one. -/
def FlagSet.Lookup (f : FlagSet) (name : String) : Option Flag :=
  f.formal.find? (fun flag => flag.Name == name)

/-- Modelled from the spec: `FlagSet.GetString` is not part of the sources at hand. The
current value of the string flag `name`; an error when no such flag is defined or when the
flag is not a string flag. -/
def FlagSet.GetString (f : FlagSet) (name : String) : String × Option error :=
  match f.Lookup name with
  | none => ("", some ("flag accessed but not defined: " ++ name))
  | some flag =>
    if flag.ValueType ≠ "string" then
      ("", some ("trying to get string value of flag of type " ++ flag.ValueType))
    else
      (flag.Value, none)

/-- Modelled from the spec: `FlagSet.Changed` is not part of the sources at hand. Whether
the user set the flag `name`; false for a flag that is not defined. -/
def FlagSet.Changed (f : FlagSet) (name : String) : Bool :=
  match f.Lookup name with
  | none => false
  | some flag => flag.Changed

/-- Modelled from the spec: `FlagSet.Set` is not part of the sources at hand. What parsing
`--name=value` from the command line does to a string flag: the value is stored and the flag
is marked changed; an error when no such flag is defined. -/
def FlagSet.Set (f : FlagSet) (name : String) (value : String) : FlagSet × Option error :=
  match f.Lookup name with
  | none => (f, some ("no such flag -" ++ name))
  | some _ =>
    ({ formal := f.formal.map (fun flag =>
        if flag.Name == name then { flag with Value := value, Changed := true } else flag) },
      none)

/-- Modelled from the spec: `FlagSet.String` is not part of the sources at hand. Defines a
string flag `name` whose value is the default `value` and which is not marked changed.
Defining a name twice is a programming error in the library (it panics): `none`. -/
def FlagSet.String (f : FlagSet) (name : String) (value : String) (_usage : String) :
    Option FlagSet :=
  match f.Lookup name with
  | some _ => none
  | none =>
    some { formal := { Name := name, Value := value, ValueType := "string",
                       DefValue := value, Changed := false } :: f.formal }

end pflag

namespace cobra

/-- Modelled from the spec: `cobra.Command` (github.com/spf13/cobra) is not part of the
sources at hand. Of a command only its flag set, `cmd.Flags()`, is used. -/
structure Command where
  Flags : pflag.FlagSet
  deriving DecidableEq, Repr

end cobra

namespace strconv

/-- The Go standard library's `strconv.ParseBool`: it accepts 1, t, T, TRUE, true, True,
0, f, F, FALSE, false, False; any other value returns an error. -/
def ParseBool (str : String) : Bool × Option error :=
  if str = "1" ∨ str = "t" ∨ str = "T" ∨ str = "true" ∨ str = "TRUE" ∨ str = "True" then
    (true, none)
  else if str = "0" ∨ str = "f" ∨ str = "F" ∨ str = "false" ∨ str = "FALSE" ∨ str = "False" then
    (false, none)
  else
    (false, some ("strconv.ParseBool: parsing \"" ++ str ++ "\": invalid syntax"))

end strconv

/-! ## genericclioptions: the dry-run flags -/

namespace genericclioptions

/-- `type DryRunStrategy int`. -/
abbrev DryRunStrategy := Int

/-- `DryRunNone DryRunStrategy = iota`. -/
def DryRunNone : DryRunStrategy := 0

/-- `DryRunClient`, the second constant of the `iota` block. -/
def DryRunClient : DryRunStrategy := 1

/-- `DryRunServer`, the third constant of the `iota` block. -/
def DryRunServer : DryRunStrategy := 2

/-- `func (d DryRunStrategy) Client() bool`. -/
def DryRunStrategy.Client (d : DryRunStrategy) : Bool :=
  d == DryRunClient

/-- `func (d DryRunStrategy) Server() bool`. -/
def DryRunStrategy.Server (d : DryRunStrategy) : Bool :=
  d == DryRunServer

/-- `func (d DryRunStrategy) None() bool`. -/
def DryRunStrategy.None (d : DryRunStrategy) : Bool :=
  d == DryRunNone

/-- Modelled from the spec: `resource.DryRunVerifier` (k8s.io/cli-runtime/pkg/resource) is
not part of the sources at hand and none of its fields is read here; a verifier is told
apart only by its identity. -/
structure DryRunVerifier where
  id : Nat
  deriving DecidableEq, Repr

/-- `type DryRunFlags struct`: all flags associated with the `--dry-run` operation. The
pointer field `DryRunVerifier` is `none` when nil. -/
structure DryRunFlags where
  DryRunStrategy : DryRunStrategy
  DryRunVerifier : Option DryRunVerifier
  deriving DecidableEq, Repr

/-- `func NewDryRunFlags() *DryRunFlags`. -/
def NewDryRunFlags : DryRunFlags :=
  { DryRunStrategy := DryRunNone, DryRunVerifier := none }

/-- `func getDryRunFlag(cmd *cobra.Command) (DryRunStrategy, error)`. The two calls of
`klog.Warning` write a log line and do not bear on the values returned. -/
def getDryRunFlag (cmd : cobra.Command) : DryRunStrategy × Option error :=
  let (dryRunFlag, err) := cmd.Flags.GetString "dry-run"
  if err ≠ none then
    (DryRunNone, some "Error accessing --dry-run")
  else if dryRunFlag = "" ∧ ¬ (cmd.Flags.Changed "dry-run" = true) then
    (DryRunClient, none)
  else
    let (b, err) := strconv.ParseBool dryRunFlag
    if err ≠ none then
      if dryRunFlag = "client" then
        (DryRunClient, none)
      else if dryRunFlag = "server" then
        (DryRunServer, none)
      else if dryRunFlag = "none" then
        (DryRunNone, none)
      else
        (DryRunNone,
          some ("Invalid dry-run value (" ++ dryRunFlag ++
            "). Must be \"none\", \"server\", or \"client\"."))
    else if b then
      (DryRunClient, none)
    else
      (DryRunNone, none)

/-- `func (f *DryRunFlags) Complete(cmd *cobra.Command) error`: the receiver after the call
and the returned error. -/
def DryRunFlags.Complete (f : DryRunFlags) (cmd : cobra.Command) :
    DryRunFlags × Option error :=
  let (strategy, err) := getDryRunFlag cmd
  let f := { f with DryRunStrategy := strategy }
  if err ≠ none then
    (f, err)
  else
    (f, none)

/-- `func (f *DryRunFlags) AddFlags(cmd *cobra.Command, printFlags *PrintFlags)`: the command
after the `dry-run` flag has been defined on it, `none` when the library panics because the
name is already defined. The argument `printFlags` is not used by the body. -/
def DryRunFlags.AddFlags {PrintFlags : Type} (_f : DryRunFlags) (cmd : cobra.Command)
    (_printFlags : PrintFlags) : Option cobra.Command :=
  (cmd.Flags.String "dry-run" "none"
    "Must be \"none\", \"server\", or \"client\". If client strategy, only print the object that would be sent, without sending it. If server strategy, submit server-side request without persisting the resource.").map
    (fun flags => { cmd with Flags := flags })

/-- `func (f *DryRunFlags) WithVerifier(dryRunVerifier *resource.DryRunVerifier)`. -/
def DryRunFlags.WithVerifier (f : DryRunFlags)
    (dryRunVerifier : Option genericclioptions.DryRunVerifier) : DryRunFlags :=
  { f with DryRunVerifier := dryRunVerifier }

/-- `func (f *DryRunFlags) GetStrategy() DryRunStrategy`. -/
def DryRunFlags.GetStrategy (f : DryRunFlags) : genericclioptions.DryRunStrategy :=
  f.DryRunStrategy

/-- `func (f *DryRunFlags) GetVerifier() *resource.DryRunVerifier`. -/
def DryRunFlags.GetVerifier (f : DryRunFlags) : Option genericclioptions.DryRunVerifier :=
  f.DryRunVerifier

/-- The `dry-run` flag of `cmd` is a string flag that the user has set to `v`: it is defined,
its value type is `"string"`, it is marked changed and its current value is `v`. -/
def explicitlySet (cmd : cobra.Command) (v : String) : Bool :=
  match cmd.Flags.Lookup "dry-run" with
  | none => false
  | some flag => flag.ValueType == "string" && flag.Changed && flag.Value == v

/-- A command with no flag defined. -/
def emptyCommand : cobra.Command :=
  { Flags := { formal := [] } }

/-- The command obtained from an empty one by `AddFlags`, then by the user setting
`--dry-run=v`. When `AddFlags` panics the command is left without the flag. -/
def commandWithDryRun (v : String) : cobra.Command :=
  match DryRunFlags.AddFlags NewDryRunFlags emptyCommand () with
  | none => emptyCommand
  | some cmd => { cmd with Flags := (cmd.Flags.Set "dry-run" v).1 }

end genericclioptions

/-! ## The rule registry of the spec -/

namespace rules

open types

/-- Modelled from the spec: the rule contract, which is not part of the sources at hand. The
spec describes a rule as a "stateless named check" with a `name`, a "stable, unique
identifier string used for selection and reporting", and a `validate` that maps a type to
an ordered sequence of member names and an error. -/
structure Rule where
  name : String
  validate : Type_ → List String × Option error

/-- The rule `ListTypeMissing` as a value of the rule contract: its `Name` and its
`Validate`. -/
def ListTypeMissing.asRule (extractCommentTags : String → List String → TagMap)
    (l : ListTypeMissing) : Rule :=
  { name := l.Name, validate := l.Validate extractCommentTags }

/-- Modelled from the spec: the configuration errors of the registry, which is not part of
the sources at hand. Registering fails with "duplicate name" and looking up fails with
"unknown rule", each reported "with the offending name". -/
inductive RegistryError where
  | duplicateName (name : String)
  | unknownRule (name : String)
  deriving DecidableEq, Repr

/-- Modelled from the spec: the Rule Registry, which is not part of the sources at hand. The
spec describes it as "a mapping from rule name to Rule instance"; the registered rules are
kept in the order of their registration. -/
structure Registry where
  rules : List Rule

/-- Modelled from the spec: the registry before any rule is registered. -/
def Registry.empty : Registry :=
  { rules := [] }

/-- Modelled from the spec: the registry's "lookup by name (fails with "unknown rule" if
absent)". -/
def Registry.lookup (r : Registry) (name : String) : Except RegistryError Rule :=
  match r.rules.find? (fun rule => rule.name == name) with
  | some rule => .ok rule
  | none => .error (.unknownRule name)

/-- Modelled from the spec: the registry's "register a new rule (fails with "duplicate name"
if the name already exists)". A rule with a new name is added and the registry with it is
returned. -/
def Registry.register (r : Registry) (rule : Rule) : Except RegistryError Registry :=
  match r.rules.find? (fun known => known.name == rule.name) with
  | some _ => .error (.duplicateName rule.name)
  | none => .ok { rules := r.rules ++ [rule] }

/-- Modelled from the spec: the registry is "built once at process start from the set of
known rule variants": the rules are registered one after the other, and the first failure
ends the construction. -/
def Registry.registerAll (r : Registry) : List Rule → Except RegistryError Registry
  | [] => .ok r
  | rule :: rest =>
    match r.register rule with
    | .error e => .error e
    | .ok r' => r'.registerAll rest

/-- The names registered in a registry, in the order of registration. -/
def Registry.registeredNames (r : Registry) : List String :=
  r.rules.map Rule.name

end rules

/-! ## Lemmas on the tag map and on the reading of comment lines -/

namespace types

theorem takeWhile_eq_iff {α : Type} (p : α → Bool) (k : List α) (hk : ∀ x ∈ k, p x = true) :
    ∀ rest : List α, rest.takeWhile p = k ↔
      rest = k ∨ ∃ c tl, p c = false ∧ rest = k ++ c :: tl := by
  induction k with
  | nil =>
    intro rest
    cases rest with
    | nil => simp
    | cons a as =>
      by_cases ha : p a = true
      · simp [List.takeWhile_cons, ha]
      · simp [List.takeWhile_cons, ha]
  | cons x xs ih =>
    intro rest
    have hx : p x = true := hk x (List.mem_cons_self _ _)
    have hxs : ∀ y ∈ xs, p y = true := fun y hy => hk y (List.mem_cons_of_mem _ hy)
    cases rest with
    | nil => simp
    | cons a as =>
      by_cases ha : p a = true
      · simp only [List.takeWhile_cons, ha, if_true, List.cons.injEq, List.cons_append]
        rw [ih hxs as]
        constructor
        · rintro ⟨rfl, h | ⟨c, tl, hc, h⟩⟩
          · exact Or.inl ⟨rfl, h⟩
          · exact Or.inr ⟨c, tl, hc, rfl, h⟩
        · rintro (⟨rfl, h⟩ | ⟨c, tl, hc, rfl, h⟩)
          · exact ⟨rfl, Or.inl h⟩
          · exact ⟨rfl, Or.inr ⟨c, tl, hc, h⟩⟩
      · have hax : a ≠ x := fun h => ha (h ▸ hx)
        simp [List.takeWhile_cons, ha, hax]

theorem lookup_filter_ne (m : TagMap) (k k' : String) (h : k' ≠ k) :
    (m.filter (fun kv => kv.1 != k)).lookup k' = m.lookup k' := by
  induction m with
  | nil => rfl
  | cons kv rest ih =>
    obtain ⟨a, b⟩ := kv
    by_cases hak : a = k
    · subst hak
      have hne : (k' == a) = false := by simpa using h
      simp [List.filter_cons, List.lookup_cons, hne, ih]
    · have hf : (a != k) = true := by simpa using hak
      simp only [List.filter_cons, hf, if_true, List.lookup_cons, ih]

theorem index_set (m : TagMap) (k k' : String) (v : List String) :
    (m.set k v).index k' = if k' = k then some v else m.index k' := by
  unfold TagMap.set TagMap.index
  by_cases h : k' = k
  · subst h
    simp [List.lookup_cons]
  · have hne : (k' == k) = false := by simpa using h
    simp only [List.lookup_cons, hne, h, if_false]
    exact lookup_filter_ne m k k' h

theorem tagOfLine_key (marker key line : String) (hkey : '=' ∉ key.toList) :
    (∃ value, tagOfLine marker line = some (key, value)) ↔
      carriesTag marker key line = true := by
  have hp : ∀ x ∈ key.toList, (fun c : Char => c != '=') x = true := by
    intro x hx
    have : x ≠ '=' := fun h => hkey (h ▸ hx)
    simpa using this
  unfold tagOfLine carriesTag
  rw [Bool.or_eq_true, beq_iff_eq]
  by_cases hpre : marker.toList.isPrefixOf line.toList = true
  · obtain ⟨rest, hrest⟩ := List.isPrefixOf_iff_prefix.1 hpre
    have hdrop : line.toList.drop marker.length = rest := by
      rw [← hrest]
      exact List.drop_left marker.toList rest
    simp only [hpre, if_true, hdrop, Option.some.injEq, Prod.mk.injEq]
    have hmk : String.mk (rest.takeWhile (fun c => c != '=')) = key ↔
        rest.takeWhile (fun c => c != '=') = key.toList := by
      constructor
      · intro h; subst h; rfl
      · intro h; rw [h]; rfl
    constructor
    · rintro ⟨value, hk, _⟩
      rcases (takeWhile_eq_iff _ key.toList hp rest).1 (hmk.1 hk) with h | ⟨c, tl, hc, h⟩
      · left
        rw [← hrest, h]
      · right
        have hc' : c = '=' := by simpa using hc
        subst hc'
        exact List.isPrefixOf_iff_prefix.2 ⟨tl, by rw [← hrest, h]; simp⟩
    · intro h
      refine ⟨_, hmk.2 ((takeWhile_eq_iff _ key.toList hp rest).2 ?_), rfl⟩
      rcases h with h | h
      · left
        rw [← hrest] at h
        exact List.append_cancel_left h
      · right
        obtain ⟨tl, htl⟩ := List.isPrefixOf_iff_prefix.1 h
        refine ⟨'=', tl, by decide, ?_⟩
        rw [← hrest] at htl
        simp only [List.append_assoc] at htl
        exact (List.append_cancel_left htl).symm
  · have hpre' : marker.toList.isPrefixOf line.toList = false := Bool.eq_false_iff.2 hpre
    simp only [hpre', Bool.false_eq_true, if_false]
    constructor
    · rintro ⟨_, h⟩; cases h
    · intro h
      exfalso
      apply hpre
      rcases h with h | h
      · exact List.isPrefixOf_iff_prefix.2 ⟨key.toList, h.symm⟩
      · obtain ⟨tl, htl⟩ := List.isPrefixOf_iff_prefix.1 h
        exact List.isPrefixOf_iff_prefix.2 ⟨key.toList ++ '=' :: tl, by rw [← htl]; simp⟩

theorem index_foldl_tags (marker key : String) (lines : List String) :
    ∀ out : TagMap,
      ((lines.foldl
          (fun out line =>
            match tagOfLine marker line with
            | some (key, value) => out.set key ((out.index key).getD [] ++ [value])
            | none => out)
          out).index key ≠ none) ↔
        (out.index key ≠ none ∨
          ∃ line ∈ lines, ∃ value, tagOfLine marker line = some (key, value)) := by
  induction lines with
  | nil => intro out; simp
  | cons line rest ih =>
    intro out
    rw [List.foldl_cons, ih]
    cases hline : tagOfLine marker line with
    | none => simp [hline]
    | some kv =>
      obtain ⟨k, v⟩ := kv
      simp only [index_set]
      by_cases hk : key = k
      · subst hk
        simp [hline]
      · have hk' : k ≠ key := fun h => hk h.symm
        simp [hk, hline, hk']

theorem ExtractCommentTags_index (marker key : String) (lines : List String)
    (hkey : '=' ∉ key.toList) :
    (ExtractCommentTags marker lines).index key ≠ none ↔ hasTag marker key lines = true := by
  unfold ExtractCommentTags
  rw [index_foldl_tags]
  have h0 : (TagMap.index [] key) = none := rfl
  simp only [h0, ne_eq, not_true_eq_false, false_or, hasTag, List.any_eq_true]
  constructor
  · rintro ⟨line, hl, hv⟩
    exact ⟨line, hl, (tagOfLine_key marker key line hkey).1 hv⟩
  · rintro ⟨line, hl, hc⟩
    exact ⟨line, hl, (tagOfLine_key marker key line hkey).2 hc⟩

end types

/-! ## Lemmas on the member loop -/

namespace rules

open types

theorem visitMember_eq (ex : String → List String → TagMap) (fields : List String)
    (m : Member) :
    ListTypeMissing.visitMember ex fields m =
      fields ++ (if ListTypeMissing.lacksListType ex m then [m.Name] else []) := by
  unfold ListTypeMissing.visitMember ListTypeMissing.lacksListType
  by_cases hk : m.Type_.Kind = Kind.Slice
  · by_cases ht : (ex "+" m.CommentLines).index "listType" = none
    · simp [hk, ht]
    · simp [hk, ht]
  · simp [hk]

theorem foldl_visitMember (ex : String → List String → TagMap) (members : List Member) :
    ∀ fields : List String,
      members.foldl (ListTypeMissing.visitMember ex) fields =
        fields ++ ListTypeMissing.violationsSpec ex members := by
  induction members with
  | nil => intro fields; simp [ListTypeMissing.violationsSpec]
  | cons m ms ih =>
    intro fields
    rw [List.foldl_cons, ih, visitMember_eq]
    by_cases h : ListTypeMissing.lacksListType ex m = true
    · simp [ListTypeMissing.violationsSpec, List.filter_cons, h]
    · simp [ListTypeMissing.violationsSpec, List.filter_cons, h]

theorem Validate_struct (ex : String → List String → TagMap) (l : ListTypeMissing)
    (t : Type_) (ht : t.Kind = Kind.Struct) :
    ListTypeMissing.Validate ex l t = (ListTypeMissing.violationsSpec ex t.Members, none) := by
  unfold ListTypeMissing.Validate
  simp only [ht, foldl_visitMember, List.nil_append]

theorem Validate_not_struct (ex : String → List String → TagMap) (l : ListTypeMissing)
    (t : Type_) (ht : t.Kind ≠ Kind.Struct) :
    ListTypeMissing.Validate ex l t = ([], none) := by
  unfold ListTypeMissing.Validate
  cases hk : t.Kind <;> simp_all

theorem mem_violationsSpec (ex : String → List String → TagMap) (members : List Member)
    (name : String) :
    name ∈ ListTypeMissing.violationsSpec ex members ↔
      ∃ m ∈ members, m.Type_.Kind = Kind.Slice ∧
        (ex "+" m.CommentLines).index "listType" = none ∧ m.Name = name := by
  simp [ListTypeMissing.violationsSpec, ListTypeMissing.lacksListType, and_assoc]

end rules

/-! ## Theorems on rules.ListTypeMissing -/

namespace rules

open types

/-- C1: for every type of kind Struct, `Validate` returns exactly the names of the members
whose own kind is Slice and whose comment lines yield no `listType` key under the `+`
marker, in member declaration order and with multiplicity (the map of `Name` over the
filter of `t.Members`), whatever `ExtractCommentTags` computes. -/
theorem Validate_struct_eq_filter_map (extractCommentTags : String → List String → TagMap)
    (l : ListTypeMissing) (t : Type_) (ht : t.Kind = Kind.Struct) :
    ListTypeMissing.Validate extractCommentTags l t =
      ((t.Members.filter
          (fun m => decide (m.Type_.Kind = Kind.Slice) &&
            decide ((extractCommentTags "+" m.CommentLines).index "listType" = none))).map
        Member.Name, none) := by
  rw [Validate_struct extractCommentTags l t ht]
  rfl

/-- C1, at the spec's scenario: `Pod` is a Struct and its violations are `["Containers"]`. -/
theorem Validate_struct_eq_filter_map_witness :
    examplePod.Kind = Kind.Struct ∧
      ListTypeMissing.Validate ExtractCommentTags {} examplePod = (["Containers"], none) :=
  ⟨rfl, (Validate_struct_eq_filter_map ExtractCommentTags {} examplePod rfl).trans (by decide)⟩

end rules

namespace rules

open types

/-- C3: for every type whose kind is not Struct, whatever its `Members` field holds,
`Validate` returns an empty violation list and a nil error. -/
theorem Validate_non_struct_empty (extractCommentTags : String → List String → TagMap)
    (l : ListTypeMissing) (t : Type_) (ht : t.Kind ≠ Kind.Struct) :
    ListTypeMissing.Validate extractCommentTags l t = ([], none) :=
  Validate_not_struct extractCommentTags l t ht

/-- C3, at a Slice-kind type that carries an untagged slice member. -/
theorem Validate_non_struct_empty_witness :
    (Type_.mk Kind.Slice [Member.mk "Items" [] (Type_.mk Kind.Slice [])]).Kind ≠ Kind.Struct ∧
      ListTypeMissing.Validate ExtractCommentTags {}
          (Type_.mk Kind.Slice [Member.mk "Items" [] (Type_.mk Kind.Slice [])]) =
        ([], none) :=
  ⟨by decide, Validate_non_struct_empty ExtractCommentTags {} _ (by decide)⟩

/-- C4: in a Struct type, a member whose own kind is not Slice contributes nothing to the
result of `Validate`, whatever its comment lines are: the result is the one obtained with
that member removed, and when no slice-kind member of the struct shares its name, its name
does not occur in the result. -/
theorem Validate_non_slice_member_skipped
    (extractCommentTags : String → List String → TagMap) (l : ListTypeMissing) (t : Type_)
    (before after : List Member) (m : Member) (ht : t.Kind = Kind.Struct)
    (hm : t.Members = before ++ m :: after) (hk : m.Type_.Kind ≠ Kind.Slice) :
    (ListTypeMissing.Validate extractCommentTags l t).1 =
        (ListTypeMissing.Validate extractCommentTags l
          (Type_.mk Kind.Struct (before ++ after))).1 ∧
      ((∀ m' ∈ t.Members, m'.Type_.Kind = Kind.Slice → m'.Name ≠ m.Name) →
        m.Name ∉ (ListTypeMissing.Validate extractCommentTags l t).1) := by
  rw [Validate_struct extractCommentTags l t ht,
    Validate_struct extractCommentTags l (Type_.mk Kind.Struct (before ++ after)) rfl]
  constructor
  · have hlack : ListTypeMissing.lacksListType extractCommentTags m = false := by
      simp [ListTypeMissing.lacksListType, hk]
    have hrest : (Type_.mk Kind.Struct (before ++ after)).Members = before ++ after := rfl
    rw [hm, hrest]
    simp [ListTypeMissing.violationsSpec, List.filter_cons, hlack]
  · intro hname hmem
    obtain ⟨m', hm', hslice, _, hn⟩ :=
      (mem_violationsSpec extractCommentTags t.Members m.Name).1 hmem
    exact hname m' hm' hslice hn

/-- C4, at a struct whose Map-kind member `Labels` carries no tag and stands between two
untagged slice members. -/
theorem Validate_non_slice_member_skipped_witness :
    (ListTypeMissing.Validate ExtractCommentTags {}
        (Type_.mk Kind.Struct
          [Member.mk "A" [] (Type_.mk Kind.Slice []),
            Member.mk "Labels" [] (Type_.mk Kind.Map []),
            Member.mk "B" [] (Type_.mk Kind.Slice [])])).1 =
      (ListTypeMissing.Validate ExtractCommentTags {}
        (Type_.mk Kind.Struct
          ([Member.mk "A" [] (Type_.mk Kind.Slice [])] ++
            [Member.mk "B" [] (Type_.mk Kind.Slice [])]))).1 ∧
    "Labels" ∉ (ListTypeMissing.Validate ExtractCommentTags {}
        (Type_.mk Kind.Struct
          [Member.mk "A" [] (Type_.mk Kind.Slice []),
            Member.mk "Labels" [] (Type_.mk Kind.Map []),
            Member.mk "B" [] (Type_.mk Kind.Slice [])])).1 :=
  have h := Validate_non_slice_member_skipped ExtractCommentTags {}
    (Type_.mk Kind.Struct
      [Member.mk "A" [] (Type_.mk Kind.Slice []),
        Member.mk "Labels" [] (Type_.mk Kind.Map []),
        Member.mk "B" [] (Type_.mk Kind.Slice [])])
    [Member.mk "A" [] (Type_.mk Kind.Slice [])]
    [Member.mk "B" [] (Type_.mk Kind.Slice [])]
    (Member.mk "Labels" [] (Type_.mk Kind.Map [])) rfl rfl (by decide)
  ⟨h.1, h.2 (by
    intro m' hm' hs
    simp only [Type_.Members, List.mem_cons, List.mem_singleton, List.not_mem_nil,
      or_false] at hm'
    rcases hm' with rfl | rfl | rfl
    · decide
    · exact absurd hs (by decide)
    · decide)⟩

/-- C5: `Validate` never returns a non-nil error: for every input type (any kind, any member
list, any comment lines, any extractor of tags) the error component is nil, and for a Struct
without members the violation list is empty. -/
theorem Validate_error_nil (extractCommentTags : String → List String → TagMap)
    (l : ListTypeMissing) (t : Type_) :
    (ListTypeMissing.Validate extractCommentTags l t).2 = none ∧
      (t.Kind = Kind.Struct → t.Members = [] →
        (ListTypeMissing.Validate extractCommentTags l t).1 = []) := by
  refine ⟨rfl, fun ht hm => ?_⟩
  rw [Validate_struct extractCommentTags l t ht, hm]
  rfl

/-- C5, at the Struct without members. -/
theorem Validate_error_nil_witness :
    (ListTypeMissing.Validate ExtractCommentTags {} (Type_.mk Kind.Struct [])).2 = none ∧
      (ListTypeMissing.Validate ExtractCommentTags {} (Type_.mk Kind.Struct [])).1 = [] :=
  ⟨(Validate_error_nil ExtractCommentTags {} (Type_.mk Kind.Struct [])).1,
    (Validate_error_nil ExtractCommentTags {} (Type_.mk Kind.Struct [])).2 rfl rfl⟩

/-- C10: `Name` returns the constant string `"list_type_missing"` for every receiver. The
receiver type `struct{}` has no field, so every receiver is the same value and no call of
`Validate` (which returns only the violations and the error) can change what `Name` returns. -/
theorem Name_constant (l : ListTypeMissing) :
    l.Name = "list_type_missing" ∧ ∀ l' : ListTypeMissing, l' = l ∧ l'.Name = l.Name :=
  ⟨rfl, fun _ => ⟨rfl, rfl⟩⟩

end rules

namespace rules

open types

theorem listType_key_decides (ex : String → List String → TagMap) (l : ListTypeMissing)
    (t : Type_) (m : Member) (ht : t.Kind = Kind.Struct) (hm : m ∈ t.Members)
    (hk : m.Type_.Kind = Kind.Slice) :
    ((ex "+" m.CommentLines).index "listType" ≠ none →
        (∀ m' ∈ t.Members, m'.Type_.Kind = Kind.Slice → m'.Name = m.Name →
          (ex "+" m'.CommentLines).index "listType" ≠ none) →
        m.Name ∉ (ListTypeMissing.Validate ex l t).1) ∧
      ((ex "+" m.CommentLines).index "listType" = none →
        m.Name ∈ (ListTypeMissing.Validate ex l t).1) := by
  rw [Validate_struct ex l t ht]
  constructor
  · intro _ hothers hmem
    obtain ⟨m', hm', hslice, hnone, hn⟩ := (mem_violationsSpec ex t.Members m.Name).1 hmem
    exact hothers m' hm' hslice hn hnone
  · intro hnone
    exact (mem_violationsSpec ex t.Members m.Name).2 ⟨m, hm, hk, hnone, rfl⟩

theorem listType_key_iff_line (lines : List String) :
    (ExtractCommentTags "+" lines).index "listType" ≠ none ↔
      hasTag "+" "listType" lines = true :=
  ExtractCommentTags_index "+" "listType" lines (by decide)

/-- C2, as the claim states it, fails where two slice members share a name: the first member
of `exampleSharedName` is a slice-kind member of a Struct whose comment lines contain
`+listType=atomic`, and yet its name is in the result of `Validate`, contributed by the
untagged second member. -/
theorem tagged_member_name_in_result :
    exampleSharedName.Kind = Kind.Struct ∧
      ∃ m ∈ exampleSharedName.Members,
        m.Type_.Kind = Kind.Slice ∧
          hasTag "+" "listType" m.CommentLines = true ∧
          (ExtractCommentTags "+" m.CommentLines).index "listType" ≠ none ∧
          m.Name ∈ (ListTypeMissing.Validate ExtractCommentTags {} exampleSharedName).1 :=
  ⟨rfl, Member.mk "_" ["+listType=atomic"] (Type_.mk Kind.Slice []),
    List.mem_cons_self _ _, rfl, by decide, by decide, by decide⟩

/-- C2, amended: for every Struct type and every slice-kind member `m` of it, if the comment
lines of `m` hold a `listType` tag (with any value, the empty one included) and so do those
of every slice-kind member of the struct that has the name of `m`, then the name of `m` is
not in the result of `Validate`; and if the comment lines of `m` hold no `listType` tag, the
name of `m` is in the result. Presence of the key decides, for any extractor of tags; and
for the extractor as the spec describes it, the key is present exactly when some line is
`+listType`, alone or followed by `=` and any value. -/
theorem Validate_listType_presence_decides
    (extractCommentTags : String → List String → TagMap) (l : ListTypeMissing) (t : Type_)
    (m : Member) (ht : t.Kind = Kind.Struct) (hm : m ∈ t.Members)
    (hk : m.Type_.Kind = Kind.Slice) :
    (((extractCommentTags "+" m.CommentLines).index "listType" ≠ none →
          (∀ m' ∈ t.Members, m'.Type_.Kind = Kind.Slice → m'.Name = m.Name →
            (extractCommentTags "+" m'.CommentLines).index "listType" ≠ none) →
          m.Name ∉ (ListTypeMissing.Validate extractCommentTags l t).1) ∧
        ((extractCommentTags "+" m.CommentLines).index "listType" = none →
          m.Name ∈ (ListTypeMissing.Validate extractCommentTags l t).1)) ∧
      ((hasTag "+" "listType" m.CommentLines = true →
          (∀ m' ∈ t.Members, m'.Type_.Kind = Kind.Slice → m'.Name = m.Name →
            hasTag "+" "listType" m'.CommentLines = true) →
          m.Name ∉ (ListTypeMissing.Validate ExtractCommentTags l t).1) ∧
        (hasTag "+" "listType" m.CommentLines = false →
          m.Name ∈ (ListTypeMissing.Validate ExtractCommentTags l t).1)) := by
  refine ⟨listType_key_decides extractCommentTags l t m ht hm hk, ?_, ?_⟩
  · intro htag hothers
    refine (listType_key_decides ExtractCommentTags l t m ht hm hk).1
      ((listType_key_iff_line _).2 htag) ?_
    intro m' hm' hs hn
    exact (listType_key_iff_line _).2 (hothers m' hm' hs hn)
  · intro htag
    refine (listType_key_decides ExtractCommentTags l t m ht hm hk).2 ?_
    by_contra hne
    rw [(listType_key_iff_line _).1 hne] at htag
    exact absurd htag (by decide)

/-- C2, amended, at `exampleEmptyValues`: the member `Items`, tagged with the empty value
`+listType=`, and the member `Keys`, with the bare tag `+listType`, are not reported, and the
untagged member `Rest` is. -/
theorem Validate_listType_presence_decides_witness :
    (hasTag "+" "listType" ["items of the list", "+listType="] = true ∧
        "Items" ∉ (ListTypeMissing.Validate ExtractCommentTags {} exampleEmptyValues).1) ∧
      (hasTag "+" "listType" ["+listType"] = true ∧
        "Keys" ∉ (ListTypeMissing.Validate ExtractCommentTags {} exampleEmptyValues).1) ∧
      (hasTag "+" "listType" ["+optional"] = false ∧
        "Rest" ∈ (ListTypeMissing.Validate ExtractCommentTags {} exampleEmptyValues).1) :=
  ⟨⟨by decide,
      (Validate_listType_presence_decides ExtractCommentTags {} exampleEmptyValues
        (Member.mk "Items" ["items of the list", "+listType="] (Type_.mk Kind.Slice []))
        rfl (List.mem_cons_self _ _) rfl).2.1 (by decide) (by
          intro m' hm' _ hn
          simp only [exampleEmptyValues, Type_.Members, List.mem_cons, List.mem_singleton,
            List.not_mem_nil, or_false] at hm'
          rcases hm' with rfl | rfl | rfl
          · decide
          · decide
          · exact absurd hn (by decide))⟩,
    ⟨by decide,
      (Validate_listType_presence_decides ExtractCommentTags {} exampleEmptyValues
        (Member.mk "Keys" ["+listType"] (Type_.mk Kind.Slice []))
        rfl (by simp [exampleEmptyValues, Type_.Members]) rfl).2.1 (by decide) (by
          intro m' hm' _ hn
          simp only [exampleEmptyValues, Type_.Members, List.mem_cons, List.mem_singleton,
            List.not_mem_nil, or_false] at hm'
          rcases hm' with rfl | rfl | rfl
          · decide
          · decide
          · exact absurd hn (by decide))⟩,
    ⟨by decide,
      (Validate_listType_presence_decides ExtractCommentTags {} exampleEmptyValues
        (Member.mk "Rest" ["+optional"] (Type_.mk Kind.Slice []))
        rfl (by simp [exampleEmptyValues, Type_.Members]) rfl).2.2 (by decide)⟩⟩

end rules

/-! ## Lemmas on the resolution of the dry-run flag -/

namespace genericclioptions

theorem GetString_of_lookup (cmd : cobra.Command) (flag : pflag.Flag)
    (hl : cmd.Flags.Lookup "dry-run" = some flag) (hty : flag.ValueType = "string") :
    cmd.Flags.GetString "dry-run" = (flag.Value, none) := by
  simp [pflag.FlagSet.GetString, hl, hty]

theorem Changed_of_lookup (cmd : cobra.Command) (flag : pflag.Flag)
    (hl : cmd.Flags.Lookup "dry-run" = some flag) :
    cmd.Flags.Changed "dry-run" = flag.Changed := by
  simp [pflag.FlagSet.Changed, hl]

/-- What `getDryRunFlag` returns once the unset branch is passed, as a function of the value
of the flag: the part of the body from `strconv.ParseBool` on. -/
theorem getDryRunFlag_of_lookup (cmd : cobra.Command) (flag : pflag.Flag)
    (hl : cmd.Flags.Lookup "dry-run" = some flag) (hty : flag.ValueType = "string")
    (hset : flag.Changed = true ∨ flag.Value ≠ "") :
    getDryRunFlag cmd =
      if (strconv.ParseBool flag.Value).2 ≠ none then
        if flag.Value = "client" then (DryRunClient, none)
        else if flag.Value = "server" then (DryRunServer, none)
        else if flag.Value = "none" then (DryRunNone, none)
        else (DryRunNone,
          some ("Invalid dry-run value (" ++ flag.Value ++
            "). Must be \"none\", \"server\", or \"client\"."))
      else if (strconv.ParseBool flag.Value).1 then (DryRunClient, none)
      else (DryRunNone, none) := by
  unfold getDryRunFlag
  rw [GetString_of_lookup cmd flag hl hty, Changed_of_lookup cmd flag hl]
  have hbranch : ¬ (flag.Value = "" ∧ ¬ (flag.Changed = true)) := by
    rintro ⟨h1, h2⟩
    rcases hset with h | h
    · exact h2 h
    · exact h h1
  simp only [ne_eq, not_true_eq_false, if_false, hbranch]

theorem explicitlySet_iff (cmd : cobra.Command) (v : String) :
    explicitlySet cmd v = true ↔
      ∃ flag : pflag.Flag, cmd.Flags.Lookup "dry-run" = some flag ∧
        flag.ValueType = "string" ∧ flag.Changed = true ∧ flag.Value = v := by
  unfold explicitlySet
  cases hl : cmd.Flags.Lookup "dry-run" with
  | none => simp
  | some flag => simp [and_assoc]

theorem getDryRunFlag_explicit (cmd : cobra.Command) (v : String)
    (h : explicitlySet cmd v = true) :
    getDryRunFlag cmd =
      if (strconv.ParseBool v).2 ≠ none then
        if v = "client" then (DryRunClient, none)
        else if v = "server" then (DryRunServer, none)
        else if v = "none" then (DryRunNone, none)
        else (DryRunNone,
          some ("Invalid dry-run value (" ++ v ++
            "). Must be \"none\", \"server\", or \"client\"."))
      else if (strconv.ParseBool v).1 then (DryRunClient, none)
      else (DryRunNone, none) := by
  obtain ⟨flag, hl, hty, hch, hv⟩ := (explicitlySet_iff cmd v).1 h
  rw [getDryRunFlag_of_lookup cmd flag hl hty (Or.inl hch), hv]

theorem Complete_eq (f : DryRunFlags) (cmd : cobra.Command) :
    f.Complete cmd =
      ({ f with DryRunStrategy := (getDryRunFlag cmd).1 }, (getDryRunFlag cmd).2) := by
  unfold DryRunFlags.Complete
  cases h : (getDryRunFlag cmd).2 <;> simp [h]

theorem explicitlySet_commandWithDryRun (v : String) :
    explicitlySet (commandWithDryRun v) v = true :=
  (explicitlySet_iff (commandWithDryRun v) v).2
    ⟨{ Name := "dry-run", Value := v, ValueType := "string", DefValue := "none",
        Changed := true }, rfl, rfl, rfl, rfl⟩

theorem ParseBool_error_iff (v : String) :
    (strconv.ParseBool v).2 ≠ none ↔
      v ∉ ["1", "t", "T", "TRUE", "true", "True", "0", "f", "F", "FALSE", "false", "False"] := by
  unfold strconv.ParseBool
  simp only [List.mem_cons, List.mem_singleton, List.not_mem_nil, or_false]
  split_ifs with h1 h2
  · simp; tauto
  · simp; tauto
  · simp; tauto

theorem getDryRunFlag_error_strategy (cmd : cobra.Command) :
    (getDryRunFlag cmd).2 ≠ none → (getDryRunFlag cmd).1 = DryRunNone := by
  unfold getDryRunFlag
  rcases cmd.Flags.GetString "dry-run" with ⟨s, e⟩
  rcases hp : strconv.ParseBool s with ⟨b, e'⟩
  simp only [hp]
  split_ifs <;> simp

end genericclioptions

/-! ## Theorems on the resolution of the dry-run flag -/

namespace genericclioptions

/-- C6: when the `dry-run` flag has been explicitly set to `"none"`, `"client"` or
`"server"`, `getDryRunFlag` yields `DryRunNone`, `DryRunClient` or `DryRunServer`
respectively with a nil error, and so does `Complete` followed by `GetStrategy`, whatever
the receiver held before. -/
theorem getDryRunFlag_named_values (cmd : cobra.Command) (v : String)
    (h : explicitlySet cmd v = true) (f : DryRunFlags) :
    (v = "none" →
        getDryRunFlag cmd = (DryRunNone, none) ∧ (f.Complete cmd).2 = none ∧
          (f.Complete cmd).1.GetStrategy = DryRunNone) ∧
      (v = "client" →
        getDryRunFlag cmd = (DryRunClient, none) ∧ (f.Complete cmd).2 = none ∧
          (f.Complete cmd).1.GetStrategy = DryRunClient) ∧
      (v = "server" →
        getDryRunFlag cmd = (DryRunServer, none) ∧ (f.Complete cmd).2 = none ∧
          (f.Complete cmd).1.GetStrategy = DryRunServer) := by
  have hget := getDryRunFlag_explicit cmd v h
  rw [Complete_eq]
  refine ⟨?_, ?_, ?_⟩
  · intro hv
    subst hv
    have hr : getDryRunFlag cmd = (DryRunNone, none) := by rw [hget]; decide
    simp [hr, DryRunFlags.GetStrategy]
  · intro hv
    subst hv
    have hr : getDryRunFlag cmd = (DryRunClient, none) := by rw [hget]; decide
    simp [hr, DryRunFlags.GetStrategy]
  · intro hv
    subst hv
    have hr : getDryRunFlag cmd = (DryRunServer, none) := by rw [hget]; decide
    simp [hr, DryRunFlags.GetStrategy]

/-- C6, at the command on which `AddFlags` defined the flag and the user passed
`--dry-run=server`. -/
theorem getDryRunFlag_named_values_witness :
    explicitlySet (commandWithDryRun "server") "server" = true ∧
      getDryRunFlag (commandWithDryRun "server") = (DryRunServer, none) ∧
      (NewDryRunFlags.Complete (commandWithDryRun "server")).2 = none ∧
      (NewDryRunFlags.Complete (commandWithDryRun "server")).1.GetStrategy = DryRunServer :=
  ⟨explicitlySet_commandWithDryRun "server",
    (getDryRunFlag_named_values (commandWithDryRun "server") "server"
      (explicitlySet_commandWithDryRun "server") NewDryRunFlags).2.2 rfl⟩

/-- C7, as the claim states it, fails: on the command obtained from `AddFlags`, where the
user has not set the flag, `getDryRunFlag` resolves the strategy to `DryRunNone`, not to
`DryRunClient`, because `AddFlags` defines the flag with the default value `"none"`. -/
theorem unset_after_AddFlags_is_none :
    ∃ cmd : cobra.Command,
      DryRunFlags.AddFlags NewDryRunFlags emptyCommand () = some cmd ∧
        cmd.Flags.Changed "dry-run" = false ∧
        getDryRunFlag cmd = (DryRunNone, none) ∧
        getDryRunFlag cmd ≠ (DryRunClient, none) :=
  ⟨_, rfl, rfl, by decide, by decide⟩

/-- C7, amended: when the `dry-run` flag is a string flag that the user has not set and whose
value is the empty string, `getDryRunFlag` resolves the strategy to `DryRunClient` with a
nil error; on a command whose flag was defined by `AddFlags` (default value `"none"`) and
left unset, it resolves the strategy to `DryRunNone` with a nil error. -/
theorem getDryRunFlag_unset (cmd : cobra.Command) :
    (∀ flag : pflag.Flag, cmd.Flags.Lookup "dry-run" = some flag →
        flag.ValueType = "string" → flag.Changed = false → flag.Value = "" →
        getDryRunFlag cmd = (DryRunClient, none)) ∧
      (∀ (PrintFlags : Type) (f : DryRunFlags) (printFlags : PrintFlags)
          (cmd' : cobra.Command),
        f.AddFlags cmd printFlags = some cmd' →
          cmd'.Flags.Changed "dry-run" = false ∧ getDryRunFlag cmd' = (DryRunNone, none)) := by
  constructor
  · intro flag hl hty hch hv
    unfold getDryRunFlag
    rw [GetString_of_lookup cmd flag hl hty, Changed_of_lookup cmd flag hl]
    simp [hch, hv]
  · intro PrintFlags f printFlags cmd' hadd
    have hl : cmd'.Flags.Lookup "dry-run" =
        some { Name := "dry-run", Value := "none", ValueType := "string",
               DefValue := "none", Changed := false } := by
      unfold DryRunFlags.AddFlags pflag.FlagSet.String at hadd
      cases hlook : cmd.Flags.Lookup "dry-run" with
      | some g => simp [hlook] at hadd
      | none =>
        simp only [hlook, Option.map_some', Option.some.injEq] at hadd
        subst hadd
        rfl
    refine ⟨by rw [Changed_of_lookup cmd' _ hl], ?_⟩
    rw [getDryRunFlag_of_lookup cmd' _ hl rfl (Or.inr (by decide))]
    decide

/-- C7, amended, at an empty command: after `AddFlags` the unset flag resolves to
`DryRunNone`; and a string flag defined with the empty default and left unset resolves to
`DryRunClient`. -/
theorem getDryRunFlag_unset_witness :
    getDryRunFlag
        { Flags := { formal := [{ Name := "dry-run", Value := "", ValueType := "string",
                                  DefValue := "", Changed := false }] } } =
      (DryRunClient, none) ∧
    (DryRunFlags.AddFlags NewDryRunFlags emptyCommand () =
        some { Flags := { formal := [{ Name := "dry-run", Value := "none",
                                       ValueType := "string", DefValue := "none",
                                       Changed := false }] } } ∧
      getDryRunFlag
          { Flags := { formal := [{ Name := "dry-run", Value := "none",
                                    ValueType := "string", DefValue := "none",
                                    Changed := false }] } } =
        (DryRunNone, none)) :=
  ⟨(getDryRunFlag_unset
      { Flags := { formal := [{ Name := "dry-run", Value := "", ValueType := "string",
                                DefValue := "", Changed := false }] } }).1
      _ rfl rfl rfl rfl,
    rfl,
    ((getDryRunFlag_unset emptyCommand).2 Unit NewDryRunFlags () _ rfl).2⟩

/-- C8: for every explicitly set `dry-run` value that `strconv.ParseBool` accepts,
`getDryRunFlag` returns a nil error, with the strategy `DryRunClient` when the value parses
to true ("1", "t", "T", "TRUE", "true", "True") and `DryRunNone` when it parses to false
("0", "f", "F", "FALSE", "false", "False"). -/
theorem getDryRunFlag_boolean_values (cmd : cobra.Command) (v : String)
    (h : explicitlySet cmd v = true) :
    (v ∈ ["1", "t", "T", "TRUE", "true", "True"] →
        strconv.ParseBool v = (true, none) ∧ getDryRunFlag cmd = (DryRunClient, none)) ∧
      (v ∈ ["0", "f", "F", "FALSE", "false", "False"] →
        strconv.ParseBool v = (false, none) ∧ getDryRunFlag cmd = (DryRunNone, none)) ∧
      (∀ b : Bool, strconv.ParseBool v = (b, none) →
        getDryRunFlag cmd = (if b then DryRunClient else DryRunNone, none)) := by
  have hget := getDryRunFlag_explicit cmd v h
  refine ⟨?_, ?_, ?_⟩
  · intro hv
    simp only [List.mem_cons, List.mem_singleton, List.not_mem_nil, or_false] at hv
    rw [hget]
    rcases hv with rfl | rfl | rfl | rfl | rfl | rfl <;> exact ⟨by decide, by decide⟩
  · intro hv
    simp only [List.mem_cons, List.mem_singleton, List.not_mem_nil, or_false] at hv
    rw [hget]
    rcases hv with rfl | rfl | rfl | rfl | rfl | rfl <;> exact ⟨by decide, by decide⟩
  · intro b hb
    rw [hget, hb]
    cases b <;> simp

/-- C8, at `--dry-run=true` and `--dry-run=false` on a command prepared by `AddFlags`. -/
theorem getDryRunFlag_boolean_values_witness :
    (explicitlySet (commandWithDryRun "true") "true" = true ∧
        getDryRunFlag (commandWithDryRun "true") = (DryRunClient, none)) ∧
      (explicitlySet (commandWithDryRun "false") "false" = true ∧
        getDryRunFlag (commandWithDryRun "false") = (DryRunNone, none)) :=
  ⟨⟨explicitlySet_commandWithDryRun "true",
      ((getDryRunFlag_boolean_values (commandWithDryRun "true") "true"
        (explicitlySet_commandWithDryRun "true")).1 (by decide)).2⟩,
    ⟨explicitlySet_commandWithDryRun "false",
      ((getDryRunFlag_boolean_values (commandWithDryRun "false") "false"
        (explicitlySet_commandWithDryRun "false")).2.1 (by decide)).2⟩⟩

/-- C9: for every explicitly set `dry-run` value `v`, `getDryRunFlag` returns a non-nil
error if and only if `v` is none of `"none"`, `"client"`, `"server"` and is not accepted by
`strconv.ParseBool`; the explicitly set empty string is such a value; and whenever
`getDryRunFlag` returns an error, on any command, the returned strategy is `DryRunNone`. -/
theorem getDryRunFlag_error_iff (cmd : cobra.Command) (v : String)
    (h : explicitlySet cmd v = true) :
    ((getDryRunFlag cmd).2 ≠ none ↔
        (v ≠ "none" ∧ v ≠ "client" ∧ v ≠ "server" ∧ (strconv.ParseBool v).2 ≠ none)) ∧
      ((strconv.ParseBool v).2 ≠ none ↔
        v ∉ ["1", "t", "T", "TRUE", "true", "True",
             "0", "f", "F", "FALSE", "false", "False"]) ∧
      (v = "" → (getDryRunFlag cmd).2 ≠ none) ∧
      (∀ cmd' : cobra.Command,
        (getDryRunFlag cmd').2 ≠ none → (getDryRunFlag cmd').1 = DryRunNone) := by
  have hget := getDryRunFlag_explicit cmd v h
  have hiff : (getDryRunFlag cmd).2 ≠ none ↔
      (v ≠ "none" ∧ v ≠ "client" ∧ v ≠ "server" ∧ (strconv.ParseBool v).2 ≠ none) := by
    rw [hget]
    split_ifs with hp hc hs hn hb <;> simp_all
  refine ⟨hiff, ParseBool_error_iff v, ?_, ?_⟩
  · intro hv
    subst hv
    exact hiff.2 (by decide)
  · exact getDryRunFlag_error_strategy

/-- C9, at the explicitly set empty string and at the explicitly set value `"yes"`. -/
theorem getDryRunFlag_error_iff_witness :
    explicitlySet (commandWithDryRun "") "" = true ∧
      (getDryRunFlag (commandWithDryRun "")).2 ≠ none ∧
      explicitlySet (commandWithDryRun "yes") "yes" = true ∧
      (getDryRunFlag (commandWithDryRun "yes")).2 ≠ none ∧
      (getDryRunFlag (commandWithDryRun "yes")).1 = DryRunNone :=
  ⟨explicitlySet_commandWithDryRun "",
    (getDryRunFlag_error_iff (commandWithDryRun "") ""
      (explicitlySet_commandWithDryRun "")).2.2.1 rfl,
    explicitlySet_commandWithDryRun "yes",
    (getDryRunFlag_error_iff (commandWithDryRun "yes") "yes"
      (explicitlySet_commandWithDryRun "yes")).1.2 (by decide),
    (getDryRunFlag_error_iff (commandWithDryRun "yes") "yes"
      (explicitlySet_commandWithDryRun "yes")).2.2.2 (commandWithDryRun "yes")
      ((getDryRunFlag_error_iff (commandWithDryRun "yes") "yes"
        (explicitlySet_commandWithDryRun "yes")).1.2 (by decide))⟩

end genericclioptions

/-! ## Theorems on the dry-run flags value and on the strategy type -/

namespace genericclioptions

/-- C11: the value returned by `NewDryRunFlags` has `DryRunStrategy` equal to `DryRunNone`,
so that `GetStrategy().None()` is true and `Client()` and `Server()` are false, and it has no
verifier set: `GetVerifier()` is nil. -/
theorem NewDryRunFlags_defaults :
    NewDryRunFlags.DryRunStrategy = DryRunNone ∧
      NewDryRunFlags.GetStrategy = DryRunNone ∧
      NewDryRunFlags.GetStrategy.None = true ∧
      NewDryRunFlags.GetStrategy.Client = false ∧
      NewDryRunFlags.GetStrategy.Server = false ∧
      NewDryRunFlags.GetVerifier = none :=
  ⟨rfl, rfl, by decide, by decide, by decide, rfl⟩

theorem getDryRunFlag_strategy_range (cmd : cobra.Command) :
    (getDryRunFlag cmd).1 = DryRunNone ∨ (getDryRunFlag cmd).1 = DryRunClient ∨
      (getDryRunFlag cmd).1 = DryRunServer := by
  unfold getDryRunFlag
  rcases cmd.Flags.GetString "dry-run" with ⟨s, e⟩
  rcases hp : strconv.ParseBool s with ⟨b, e'⟩
  simp only [hp]
  split_ifs <;> simp

theorem strategy_predicates (d : DryRunStrategy) :
    (d.None = true ↔ d = DryRunNone) ∧ (d.Client = true ↔ d = DryRunClient) ∧
      (d.Server = true ↔ d = DryRunServer) := by
  simp [DryRunStrategy.None, DryRunStrategy.Client, DryRunStrategy.Server]

/-- C13: for every `DryRunStrategy` value `d` (any integer), at most one of `d.Client()`,
`d.Server()`, `d.None()` is true; and for every strategy returned by `getDryRunFlag`, with
or without an error, exactly one of them is true: the result is always one of `DryRunNone`,
`DryRunClient`, `DryRunServer`. -/
theorem strategy_predicates_exclusive (d : DryRunStrategy) (cmd : cobra.Command) :
    (¬ (d.Client = true ∧ d.Server = true) ∧ ¬ (d.Client = true ∧ d.None = true) ∧
        ¬ (d.Server = true ∧ d.None = true)) ∧
      ((getDryRunFlag cmd).1 = DryRunNone ∨ (getDryRunFlag cmd).1 = DryRunClient ∨
        (getDryRunFlag cmd).1 = DryRunServer) ∧
      (((getDryRunFlag cmd).1.None = true ∧ (getDryRunFlag cmd).1.Client = false ∧
          (getDryRunFlag cmd).1.Server = false) ∨
        ((getDryRunFlag cmd).1.None = false ∧ (getDryRunFlag cmd).1.Client = true ∧
          (getDryRunFlag cmd).1.Server = false) ∨
        ((getDryRunFlag cmd).1.None = false ∧ (getDryRunFlag cmd).1.Client = false ∧
          (getDryRunFlag cmd).1.Server = true)) := by
  obtain ⟨hn, hc, hs⟩ := strategy_predicates d
  refine ⟨⟨?_, ?_, ?_⟩, getDryRunFlag_strategy_range cmd, ?_⟩
  · rintro ⟨h1, h2⟩
    have := (hc.1 h1).symm.trans (hs.1 h2)
    exact absurd this (by decide)
  · rintro ⟨h1, h2⟩
    have := (hc.1 h1).symm.trans (hn.1 h2)
    exact absurd this (by decide)
  · rintro ⟨h1, h2⟩
    have := (hs.1 h1).symm.trans (hn.1 h2)
    exact absurd this (by decide)
  · rcases getDryRunFlag_strategy_range cmd with h | h | h
    · rw [h]; exact Or.inl (by decide)
    · rw [h]; exact Or.inr (Or.inl (by decide))
    · rw [h]; exact Or.inr (Or.inr (by decide))

/-- C16: `Complete` is not atomic on failure: whenever `Complete` returns a non-nil error,
the field `DryRunStrategy` is `DryRunNone` afterwards, whatever it was before the call,
while the field `DryRunVerifier` is left unchanged by `Complete` in every case. -/
theorem Complete_failure_resets_strategy (f : DryRunFlags) (cmd : cobra.Command) :
    ((f.Complete cmd).2 ≠ none → (f.Complete cmd).1.DryRunStrategy = DryRunNone) ∧
      (f.Complete cmd).1.DryRunVerifier = f.DryRunVerifier := by
  rw [Complete_eq]
  exact ⟨getDryRunFlag_error_strategy cmd, rfl⟩

/-- C16, at a receiver that held `DryRunServer` and a verifier, completed on a command whose
flag was set to the invalid value `"bogus"`: the call fails, the strategy is `DryRunNone`
afterwards and the verifier is the one held before. -/
theorem Complete_failure_resets_strategy_witness :
    (DryRunFlags.Complete { DryRunStrategy := DryRunServer, DryRunVerifier := some ⟨7⟩ }
        (commandWithDryRun "bogus")).2 ≠ none ∧
      (DryRunFlags.Complete { DryRunStrategy := DryRunServer, DryRunVerifier := some ⟨7⟩ }
        (commandWithDryRun "bogus")).1.DryRunStrategy = DryRunNone ∧
      (DryRunFlags.Complete { DryRunStrategy := DryRunServer, DryRunVerifier := some ⟨7⟩ }
        (commandWithDryRun "bogus")).1.DryRunVerifier = some ⟨7⟩ :=
  ⟨by decide,
    (Complete_failure_resets_strategy
      { DryRunStrategy := DryRunServer, DryRunVerifier := some ⟨7⟩ }
      (commandWithDryRun "bogus")).1 (by decide),
    (Complete_failure_resets_strategy
      { DryRunStrategy := DryRunServer, DryRunVerifier := some ⟨7⟩ }
      (commandWithDryRun "bogus")).2⟩

end genericclioptions

/-! ## Theorems on the shape of the violation list -/

namespace rules

open types

theorem violationsSpec_append (ex : String → List String → TagMap) (a b : List Member) :
    ListTypeMissing.violationsSpec ex (a ++ b) =
      ListTypeMissing.violationsSpec ex a ++ ListTypeMissing.violationsSpec ex b := by
  simp [ListTypeMissing.violationsSpec, List.filter_append]

/-- C14: `Validate` is a list homomorphism over the member sequence: for every two member
lists `a` and `b`, the violations of a Struct with members `a ++ b` are the violations of
the Struct with members `a` followed by the violations of the Struct with members `b`. -/
theorem Validate_append (extractCommentTags : String → List String → TagMap)
    (l : ListTypeMissing) (a b : List Member) :
    (ListTypeMissing.Validate extractCommentTags l (Type_.mk Kind.Struct (a ++ b))).1 =
      (ListTypeMissing.Validate extractCommentTags l (Type_.mk Kind.Struct a)).1 ++
        (ListTypeMissing.Validate extractCommentTags l (Type_.mk Kind.Struct b)).1 := by
  rw [Validate_struct extractCommentTags l (Type_.mk Kind.Struct (a ++ b)) rfl,
    Validate_struct extractCommentTags l (Type_.mk Kind.Struct a) rfl,
    Validate_struct extractCommentTags l (Type_.mk Kind.Struct b) rfl]
  exact violationsSpec_append extractCommentTags a b

/-- C15: for every Struct type whose member names are pairwise distinct, the violation list
returned by `Validate` holds no name twice, every reported name is the name of a member of
the input, and the list is at most as long as the number of slice-kind members. -/
theorem Validate_nodup_of_distinct_names
    (extractCommentTags : String → List String → TagMap) (l : ListTypeMissing) (t : Type_)
    (ht : t.Kind = Kind.Struct) (hnames : (t.Members.map Member.Name).Nodup) :
    (ListTypeMissing.Validate extractCommentTags l t).1.Nodup ∧
      (∀ name ∈ (ListTypeMissing.Validate extractCommentTags l t).1,
        ∃ m ∈ t.Members, m.Name = name) ∧
      (ListTypeMissing.Validate extractCommentTags l t).1.length ≤
        (t.Members.filter (fun m => decide (m.Type_.Kind = Kind.Slice))).length := by
  rw [Validate_struct extractCommentTags l t ht]
  refine ⟨?_, ?_, ?_⟩
  · exact hnames.sublist ((List.filter_sublist _).map Member.Name)
  · intro name hname
    obtain ⟨m, hm, _, _, hn⟩ := (mem_violationsSpec extractCommentTags t.Members name).1 hname
    exact ⟨m, hm, hn⟩
  · unfold ListTypeMissing.violationsSpec
    rw [List.length_map, ← List.countP_eq_length_filter, ← List.countP_eq_length_filter]
    apply List.countP_mono_left
    intro m _ hm
    simp only [ListTypeMissing.lacksListType, Bool.and_eq_true] at hm
    exact hm.1

/-- C15, at the spec's `Pod`: its three member names are distinct, and the violation list
`["Containers"]` has no duplicate and is not longer than the two slice-kind members. -/
theorem Validate_nodup_of_distinct_names_witness :
    (examplePod.Members.map Member.Name).Nodup ∧
      (ListTypeMissing.Validate ExtractCommentTags {} examplePod).1.Nodup ∧
      (ListTypeMissing.Validate ExtractCommentTags {} examplePod).1.length ≤
        (examplePod.Members.filter (fun m => decide (m.Type_.Kind = Kind.Slice))).length :=
  have h := Validate_nodup_of_distinct_names ExtractCommentTags {} examplePod rfl (by decide)
  ⟨by decide, h.1, h.2.2⟩

end rules

/-! ## Theorems on the rule registry -/

namespace rules

open types

theorem find_name_isSome (rs : List Rule) (name : String) :
    (rs.find? (fun known => known.name == name)).isSome = true ↔
      name ∈ rs.map Rule.name := by
  induction rs with
  | nil => simp
  | cons r rest ih =>
    by_cases h : r.name = name
    · simp [List.find?_cons, h]
    · have hne : (r.name == name) = false := by simpa using h
      have hne' : ¬ name = r.name := fun e => h e.symm
      simp only [List.find?_cons, hne, List.map_cons, List.mem_cons, hne', false_or]
      exact ih

theorem register_ok_iff (reg reg' : Registry) (rule : Rule) :
    reg.register rule = .ok reg' ↔
      rule.name ∉ reg.registeredNames ∧ reg' = { rules := reg.rules ++ [rule] } := by
  unfold Registry.register Registry.registeredNames
  cases hf : reg.rules.find? (fun known => known.name == rule.name) with
  | none =>
    have hnot : rule.name ∉ reg.rules.map Rule.name := by
      intro hmem
      have := (find_name_isSome reg.rules rule.name).2 hmem
      simp [hf] at this
    simp only [hnot, not_false_eq_true, true_and]
    constructor
    · intro h; cases h; rfl
    · intro h; rw [h]
  | some known =>
    have hmem : rule.name ∈ reg.rules.map Rule.name :=
      (find_name_isSome reg.rules rule.name).1 (by simp [hf])
    simp only [hmem, not_true_eq_false, false_and, iff_false]
    intro h
    cases h

theorem register_keeps_nodup (reg reg' : Registry) (rule : Rule)
    (hnd : reg.registeredNames.Nodup) (hok : reg.register rule = .ok reg') :
    reg'.registeredNames.Nodup := by
  obtain ⟨hnew, hreg⟩ := (register_ok_iff reg reg' rule).1 hok
  subst hreg
  unfold Registry.registeredNames at *
  rw [List.map_append, List.map_singleton]
  exact List.Nodup.append hnd (List.nodup_singleton _)
    (by
      intro a ha hb
      rw [List.mem_singleton] at hb
      exact hnew (hb ▸ ha))

theorem registerAll_keeps_nodup (rules : List Rule) :
    ∀ reg reg' : Registry, reg.registeredNames.Nodup →
      reg.registerAll rules = .ok reg' → reg'.registeredNames.Nodup := by
  induction rules with
  | nil =>
    intro reg reg' hnd hok
    simp only [Registry.registerAll] at hok
    cases hok
    exact hnd
  | cons rule rest ih =>
    intro reg reg' hnd hok
    simp only [Registry.registerAll] at hok
    cases hr : reg.register rule with
    | error e => rw [hr] at hok; cases hok
    | ok mid =>
      rw [hr] at hok
      exact ih mid reg' (register_keeps_nodup reg mid rule hnd hr) hok

/-- C12: registering a rule in the Rule Registry under a name that is already registered
fails with the duplicate-name error for that name, and leaves no new registry; so no two
registered rules ever share a name: a registration that succeeds keeps the registered names
pairwise distinct, and every registry built by registrations from the empty one has pairwise
distinct names. -/
theorem register_duplicate_name_fails (reg : Registry) (rule : Rule) :
    (rule.name ∈ reg.registeredNames →
        reg.register rule = .error (.duplicateName rule.name)) ∧
      (∀ reg' : Registry, reg.registeredNames.Nodup → reg.register rule = .ok reg' →
        reg'.registeredNames.Nodup) ∧
      (∀ (rules : List Rule) (built : Registry),
        Registry.empty.registerAll rules = .ok built → built.registeredNames.Nodup) := by
  refine ⟨?_, ?_, ?_⟩
  · intro hmem
    unfold Registry.register
    cases hf : reg.rules.find? (fun known => known.name == rule.name) with
    | some known => rfl
    | none =>
      have := (find_name_isSome reg.rules rule.name).2 hmem
      simp [hf] at this
  · intro reg' hnd hok
    exact register_keeps_nodup reg reg' rule hnd hok
  · intro rules built hok
    exact registerAll_keeps_nodup rules Registry.empty built List.nodup_nil hok

/-- C12, at the registry that holds the rule `list_type_missing`: registering that rule a
second time fails with the duplicate-name error. -/
theorem register_duplicate_name_fails_witness :
    "list_type_missing" ∈
        (Registry.mk [ListTypeMissing.asRule ExtractCommentTags {}]).registeredNames ∧
      (Registry.mk [ListTypeMissing.asRule ExtractCommentTags {}]).register
          (ListTypeMissing.asRule ExtractCommentTags {}) =
        .error (.duplicateName "list_type_missing") :=
  ⟨by decide,
    (register_duplicate_name_fails (Registry.mk [ListTypeMissing.asRule ExtractCommentTags {}])
      (ListTypeMissing.asRule ExtractCommentTags {})).1 (by decide)⟩

end rules
